import Mathlib

/-!
# PortfolioAnalyzer — shallow embedding and verification

A shallow embedding of the algorithmic core of the PortfolioAnalyzer
frontend (`src/frontend/src/utils/risk.ts` and
`src/frontend/src/components/Portfolio.tsx`), together with theorems
settling the frozen specification claims.

Conventions of the embedding:
* JavaScript numbers are modelled as rationals (`ℚ`); the numeric
  comparisons exercised by the claims are exact at every input we use.
* A value that may be `null`/`undefined` is an `Option`.
* A fallible remote call is a function into `Option` (`none` = the
  promise rejected / the request failed); within one valuation cycle the
  outcome is a function of the request's ticker.
* JavaScript truthiness on numbers (`0` is falsy) and on strings (`""`
  is falsy) is spelled out explicitly at each site that relies on it.
-/

namespace PortfolioAnalyzer

/-! ## Risk tolerance classifier — `src/frontend/src/utils/risk.ts` -/

inductive RiskTolerance where
  | conservative
  | moderate
  | aggressive
deriving DecidableEq

/-- `computeRiskRecommendation` from `risk.ts`.  `obligationsAmount` is an
optional field defaulting to `0` (`obligationsAmount = 0` in the TS
destructuring), hence the `Option ℚ` argument and `getD 0`.  The
intermediate flags `highObligations`/`lowObligations` of the source are
inlined. -/
def computeRiskRecommendation (age income retirementYears : ℚ)
    (obligationsAmount : Option ℚ) : RiskTolerance :=
  let obligations := obligationsAmount.getD 0
  if retirementYears ≤ 10 ∨ age ≥ 55 ∨ obligations ≥ 2500 then
    RiskTolerance.conservative
  else if retirementYears ≥ 25 ∧ income ≥ 100000 ∧ obligations ≤ 1000 then
    RiskTolerance.aggressive
  else
    RiskTolerance.moderate

/-- The three-rule precedence table exactly as the specification words it
(first match wins, all boundaries inclusive).  Stated separately from
`computeRiskRecommendation` so the claim can compare code against spec. -/
def classifySpecRules (age income retirementYears obligations : ℚ) : RiskTolerance :=
  if retirementYears ≤ 10 ∨ age ≥ 55 ∨ obligations ≥ 2500 then
    RiskTolerance.conservative
  else if retirementYears ≥ 25 ∧ income ≥ 100000 ∧ obligations ≤ 1000 then
    RiskTolerance.aggressive
  else
    RiskTolerance.moderate

/-! ## Price aggregation — `Portfolio.tsx`, `loadPrices` -/

/-- A stored holding as consumed by `loadPrices` (identity field omitted;
it plays no role in pricing). -/
structure Holding where
  ticker : String
  shares : ℚ
  avg_price : ℚ
deriving DecidableEq

/-- The payload of a successful `api.getStockPrice` response
(`res.data`): `current_price` and `sector` may each be `null`/absent. -/
structure QuoteData where
  current_price : Option ℚ
  sector : Option String
  cached : Bool
deriving DecidableEq

/-- One element of `priceResults`: what the `.then`/`.catch` pair in
`loadPrices` produces for one ticker. -/
structure PriceResult where
  ticker : String
  price : Option ℚ
  sector : Option String
  cached : Bool
deriving DecidableEq

/-- A single price request:  on fulfilment the quote fields are copied;
on rejection the `.catch` handler substitutes
`{ticker, price: null, sector: 'Unknown', cached: false}`. -/
def fetchPriceResult (fetch : String → Option QuoteData) (t : String) : PriceResult :=
  match fetch t with
  | some q => { ticker := t, price := q.current_price, sector := q.sector, cached := q.cached }
  | none => { ticker := t, price := none, sector := some "Unknown", cached := false }

/-- `priceResults`: one result per holding, in holding order. -/
def batchPriceResults (fetch : String → Option QuoteData) (holdings : List Holding) :
    List PriceResult :=
  holdings.map (fun h => fetchPriceResult fetch h.ticker)

/-- `priceResults.find(p => p.ticker === holding.ticker)`. -/
def lookupPriceResult (results : List PriceResult) (t : String) : Option PriceResult :=
  results.find? (fun p => p.ticker = t)

/-- `allCached = priceResults.length > 0 && priceResults.every(result => result.cached)`. -/
def allPricesCached (fetch : String → Option QuoteData) (holdings : List Holding) : Bool :=
  let priceResults := batchPriceResults fetch holdings
  decide (0 < priceResults.length) && priceResults.all (fun r => r.cached)

/-- A holding joined with its price data (`PortfolioHolding` with the
calculated fields; `price_loading` is `false` on every object built by
`loadPrices`, so it is omitted). -/
structure PricedHolding where
  ticker : String
  shares : ℚ
  avg_price : ℚ
  sector : String
  current_price : Option ℚ
  current_value : ℚ
  gain_loss : ℚ
  gain_loss_pct : ℚ
deriving DecidableEq

/-- `priceData?.sector || 'Unknown'` — `undefined` and the empty string
are both falsy in JavaScript. -/
def sectorOrUnknown (s : Option String) : String :=
  match s with
  | none => "Unknown"
  | some v => if v = "" then "Unknown" else v

/-- The fallback object emitted when the joined price is absent *or*
falsy (the source guards with `if (priceData?.price)`, so a price of `0`
also lands here). -/
def fallbackHolding (h : Holding) (stockSector : String) : PricedHolding :=
  { ticker := h.ticker, shares := h.shares, avg_price := h.avg_price,
    sector := stockSector, current_price := none, current_value := 0,
    gain_loss := 0, gain_loss_pct := 0 }

/-- The body of the `baseHoldings.map` in `loadPrices`: join one holding
with `priceResults` and compute the derived fields. -/
def priceHolding (results : List PriceResult) (h : Holding) : PricedHolding :=
  let priceData := lookupPriceResult results h.ticker
  let stockSector := sectorOrUnknown (priceData.bind (fun p => p.sector))
  match priceData.bind (fun p => p.price) with
  | some currentPrice =>
    -- `if (priceData?.price)`: a present price of 0 is falsy and takes
    -- the fallback branch.
    if currentPrice = 0 then fallbackHolding h stockSector
    else
      let currentValue := h.shares * currentPrice
      let costBasis := h.shares * h.avg_price
      let gainLoss := currentValue - costBasis
      let gainLossPct := if costBasis > 0 then gainLoss / costBasis * 100 else 0
      { ticker := h.ticker, shares := h.shares, avg_price := h.avg_price,
        sector := stockSector, current_price := some currentPrice,
        current_value := currentValue, gain_loss := gainLoss,
        gain_loss_pct := gainLossPct }
  | none => fallbackHolding h stockSector

/-- Portfolio-level aggregates set at the end of `loadPrices`. -/
structure PortfolioTotals where
  total_value : ℚ
  total_gain_loss : ℚ
  total_invested : ℚ
  all_prices_cached : Bool
deriving DecidableEq

/-- The whole of `loadPrices`, parameterised by the per-ticker quote
outcome for this valuation cycle.  `(h.current_value || 0)` and
`(h.gain_loss || 0)` coincide with the plain field reads because the
fields are always-present rationals and `0 || 0 = 0`. -/
def loadPrices (fetch : String → Option QuoteData) (holdings : List Holding) :
    List PricedHolding × PortfolioTotals :=
  let priceResults := batchPriceResults fetch holdings
  let holdingsWithPrices := holdings.map (priceHolding priceResults)
  let total := (holdingsWithPrices.map (fun h => h.current_value)).sum
  let totalGL := (holdingsWithPrices.map (fun h => h.gain_loss)).sum
  let invested := (holdingsWithPrices.map (fun h => h.shares * h.avg_price)).sum
  (holdingsWithPrices,
    { total_value := total, total_gain_loss := totalGL, total_invested := invested,
      all_prices_cached := allPricesCached fetch holdings })

/-- Pricing a holding against only its own quote result: used to state
that a holding's row is independent of the other requests' outcomes. -/
def priceHoldingSingle (fetch : String → Option QuoteData) (h : Holding) : PricedHolding :=
  priceHolding [fetchPriceResult fetch h.ticker] h

/-- Claim C2's reading of the aggregate flag: non-empty holding list and
every *resolved* quote cached — a failed request is not examined. -/
def allPricesCachedResolvedOnly (fetch : String → Option QuoteData)
    (holdings : List Holding) : Bool :=
  decide (holdings ≠ []) &&
    holdings.all (fun h =>
      match fetch h.ticker with
      | some q => q.cached
      | none => true)

/-- The flag the code actually computes, restated over the holdings: the
per-ticker result set is non-empty and every result — a failed request
counting as `cached = false` — is cached. -/
def allPricesCachedAmendedSpec (fetch : String → Option QuoteData)
    (holdings : List Holding) : Bool :=
  decide (holdings ≠ []) &&
    holdings.all (fun h =>
      match fetch h.ticker with
      | some q => q.cached
      | none => false)

/-! ## Earnings coverage selection — `Portfolio.tsx`, `loadAnalysis` -/

/-- One entry of `response.data.holdings` as read by the coverage
selector: only `ticker`, `current_value` and `asset_type` are consumed. -/
structure AnalysisHolding where
  ticker : String
  current_value : ℚ
  asset_type : Option String
deriving DecidableEq

/-- JavaScript `String.prototype.trim` (strip whitespace from both
ends), implemented on the character list so that concrete runs
evaluate. -/
def trimJS (s : String) : String :=
  String.mk (((s.data.dropWhile Char.isWhitespace).reverse.dropWhile
    Char.isWhitespace).reverse)

/-- JavaScript `String.prototype.toUpperCase` on the ASCII strings this
engine meets, implemented on the character list. -/
def toUpperJS (s : String) : String :=
  String.mk (s.data.map Char.toUpper)

/-- `new Set(['ETF', 'MUTUAL FUND', 'FUND'])`. -/
def excludedAssetTypes : List String := ["ETF", "MUTUAL FUND", "FUND"]

/-- The body of the `filter` over `response.data.holdings`:
`const assetType = holding.asset_type?.toUpperCase();
 return !assetType || !excludedAssetTypes.has(assetType);`
(`!assetType` is true when `asset_type` is absent and also when it is the
empty string). -/
def keepsForCoverage (h : AnalysisHolding) : Bool :=
  match h.asset_type.map toUpperJS with
  | none => true
  | some assetType => assetType = "" || !(excludedAssetTypes.contains assetType)

/-- The comparator `(a, b) => b.current_value - a.current_value`: `a`
precedes `b` when the comparator is non-positive, i.e. descending by
`current_value` (the engine's sort is stable on ties). -/
def byValueDesc (a b : AnalysisHolding) : Prop :=
  b.current_value ≤ a.current_value

instance : DecidableRel byValueDesc :=
  fun a b => inferInstanceAs (Decidable (b.current_value ≤ a.current_value))

/-- The `sortedHoldings.filter` with the mutable `running` accumulator:
per element, reject when `totalValue <= 0`, reject when
`running / totalValue >= 0.7` (leaving `running` untouched), otherwise
keep the element and add its value to `running`. -/
def topFilter (totalValue : ℚ) : ℚ → List AnalysisHolding → List AnalysisHolding
  | _, [] => []
  | running, h :: rest =>
    if totalValue ≤ 0 then topFilter totalValue running rest
    else if running / totalValue ≥ 7/10 then topFilter totalValue running rest
    else h :: topFilter totalValue (running + h.current_value) rest

/-- `topHoldings` as computed by `loadAnalysis`: fund filter, stable
descending sort by value, total over the sorted list, then `topFilter`
starting from `running = 0`. -/
def coverageSelection (holdings : List AnalysisHolding) : List AnalysisHolding :=
  let filteredHoldings := holdings.filter keepsForCoverage
  let sortedHoldings := List.insertionSort byValueDesc filteredHoldings
  let totalValue := (sortedHoldings.map (fun h => h.current_value)).sum
  topFilter totalValue 0 sortedHoldings

/-- The claim's wording of the walk: take holdings in order only while
`running / totalValue < 0.70` at the moment each is considered. -/
def takeWhileShare (totalValue : ℚ) : ℚ → List AnalysisHolding → List AnalysisHolding
  | _, [] => []
  | running, h :: rest =>
    if running / totalValue < 7/10 then
      h :: takeWhileShare totalValue (running + h.current_value) rest
    else []

/-- The selection as claim C3 words it: drop fund-like asset types, sort
the rest descending by value, total over the *filtered* set, select
nothing when the total is ≤ 0, otherwise the `< 0.70` walk. -/
def coverageSelectionSpec (holdings : List AnalysisHolding) : List AnalysisHolding :=
  let filteredHoldings := holdings.filter keepsForCoverage
  let sortedHoldings := List.insertionSort byValueDesc filteredHoldings
  let totalValue := (filteredHoldings.map (fun h => h.current_value)).sum
  if totalValue ≤ 0 then [] else takeWhileShare totalValue 0 sortedHoldings

/-! ## Transcript fan-out — `Portfolio.tsx`, `loadAnalysis` tail -/

/-- The `summaries` record built from the settled results; modelled as an
association list with JavaScript object-assignment semantics for lookup
(`summaries[ticker] = summary` overwrites an existing key). -/
def setKey (m : List (String × String)) (k v : String) : List (String × String) :=
  (k, v) :: m.filter (fun p => p.1 ≠ k)

/-- `summaries[t]`. -/
def lookupKey (m : List (String × String)) (k : String) : Option String :=
  (m.find? (fun p => p.1 = k)).map (fun p => p.2)

/-- The `Promise.allSettled` fan-out over the selected tickers followed
by the joins: `fetchT t = some s` models a fulfilled
`getEarningsTranscript` whose payload echoes the requested ticker with
summary `s`; `none` models a rejected request.  Returns the summaries
record and the some-transcript-failed flag
(`results.some(result => result.status === 'rejected')`). -/
def fetchTranscripts (fetchT : String → Option String) (tickers : List String) :
    List (String × String) × Bool :=
  let results := tickers.map (fun t => (t, fetchT t))
  let summaries := results.foldl
    (fun acc r =>
      match r.2 with
      | some s => setKey acc r.1 s
      | none => acc) []
  (summaries, results.any (fun r => r.2.isNone))

/-! ## Bulk import — `Portfolio.tsx`, `parseImportRows` / `handleImportHoldings` -/

/-- One editable import row (all three data fields are raw strings). -/
structure ImportRow where
  id : ℤ
  ticker : String
  shares : String
  avg_price : String
deriving DecidableEq

/-- A locally validated preview entry. -/
structure ImportHolding where
  id : ℤ
  ticker : String
  shares : ℚ
  avg_price : ℚ
deriving DecidableEq

/-- Value of a digit run, most significant first. -/
def digitsVal (ds : List Char) : ℕ :=
  ds.foldl (fun n c => 10 * n + (c.toNat - 48)) 0

/-- Numeric prefix after sign handling: longest `digits [. digits]`
prefix; `none` (NaN) when it contains no digit.  Trailing garbage is
ignored, as `parseFloat` does. -/
def parseFloatCore (cs : List Char) : Option ℚ :=
  let intPart := cs.takeWhile (fun c => c.isDigit)
  let rest := cs.dropWhile (fun c => c.isDigit)
  match rest with
  | '.' :: rest2 =>
    let fracPart := rest2.takeWhile (fun c => c.isDigit)
    if intPart.isEmpty && fracPart.isEmpty then none
    else some ((digitsVal intPart : ℚ) + (digitsVal fracPart : ℚ) / 10 ^ fracPart.length)
  | _ => if intPart.isEmpty then none else some (digitsVal intPart)

/-- JavaScript `parseFloat` on the inputs this engine meets: leading
whitespace skipped, optional sign, then a decimal prefix; `none` models
`NaN`.  (Exponents and `Infinity` are not modelled; no claim touches
them.) -/
def parseFloatJS (s : String) : Option ℚ :=
  let cs := s.data.dropWhile (fun c => c.isWhitespace)
  match cs with
  | '-' :: rest => (parseFloatCore rest).map (fun q => -q)
  | '+' :: rest => parseFloatCore rest
  | _ => parseFloatCore cs

/-- `if (!tickerRaw && !row.shares && !row.avg_price)` — the silent-skip
test: trimmed ticker empty and the raw shares/price strings empty. -/
def rowSkipped (row : ImportRow) : Bool :=
  trimJS row.ticker = "" && row.shares = "" && row.avg_price = ""

/-- `if (!tickerRaw || Number.isNaN(sharesValue) || Number.isNaN(priceValue))`. -/
def rowInvalid (row : ImportRow) : Bool :=
  trimJS row.ticker = "" || (parseFloatJS row.shares).isNone ||
    (parseFloatJS row.avg_price).isNone

/-- `` `Row ${index + 1}: enter ticker, shares, and avg price.` `` -/
def importErrorMsg (index : ℕ) : String :=
  "Row " ++ toString (index + 1) ++ ": enter ticker, shares, and avg price."

/-- The `importRows.forEach((row, index) => ...)` accumulation, with the
current index explicit. -/
def parseImportRowsFrom : ℕ → List ImportRow → List ImportHolding × List String
  | _, [] => ([], [])
  | index, row :: rest =>
    let tail := parseImportRowsFrom (index + 1) rest
    if rowSkipped row then tail
    else if rowInvalid row then (tail.1, importErrorMsg index :: tail.2)
    else
      ({ id := row.id, ticker := toUpperJS (trimJS row.ticker),
         shares := (parseFloatJS row.shares).getD 0,
         avg_price := (parseFloatJS row.avg_price).getD 0 } :: tail.1, tail.2)

/-- `parseImportRows`: the `(preview, errors)` pair. -/
def parseImportRows (rows : List ImportRow) : List ImportHolding × List String :=
  parseImportRowsFrom 0 rows

/-- The errors exactly as claim C7 words them: enumerate the rows by
position, skip the all-blank ones silently, and emit one positional
message per remaining row that lacks a non-empty ticker or a parseable
shares or price. -/
def importErrorsSpec (rows : List ImportRow) : List String :=
  (rows.enum).filterMap (fun p =>
    if rowSkipped p.2 then none
    else if rowInvalid p.2 then some (importErrorMsg p.1)
    else none)

/-- The preview rows under the same enumeration reading: rows neither
skipped nor invalid, in order. -/
def importPreviewSpec (rows : List ImportRow) : List ImportHolding :=
  rows.filterMap (fun row =>
    if rowSkipped row then none
    else if rowInvalid row then none
    else some { id := row.id, ticker := toUpperJS (trimJS row.ticker),
                shares := (parseFloatJS row.shares).getD 0,
                avg_price := (parseFloatJS row.avg_price).getD 0 })

inductive ImportMode where
  | merge
  | replace
deriving DecidableEq

/-- What `handleImportHoldings` did on one invocation: which tickers it
sent to `api.validateTicker` (in call order), the `bulkUpsertHoldings`
payload when one was issued, and the final `importErrors` state. -/
structure ImportTrace where
  validateCalls : List String
  upsert : Option (ImportMode × List Holding)
  importErrors : List String
deriving DecidableEq

/-- `Array.from(new Set(...))`: distinct elements in first-occurrence
order. -/
def uniqueFirstAux (seen : List String) : List String → List String
  | [] => []
  | a :: l =>
    if a ∈ seen then uniqueFirstAux seen l
    else a :: uniqueFirstAux (a :: seen) l

def uniqueFirst (l : List String) : List String :=
  uniqueFirstAux [] l

/-- The `for (const ticker of uniqueTickers)` validation loop: returns
the tickers actually sent to `validateTicker` and the first invalid one,
if any (the loop returns early on it). -/
def validateLoop (validFn : String → Bool) : List String → List String × Option String
  | [] => ([], none)
  | t :: rest =>
    if validFn t then
      let tail := validateLoop validFn rest
      (t :: tail.1, tail.2)
    else ([t], some t)

/-- `handleImportHoldings`, parameterised by the remote
`validateTicker` verdicts for this invocation.  The early return on
`preview.length === 0 || errors.length > 0` makes no network call; an
invalid ticker aborts with `importErrors = ['Invalid ticker: ...']` and
no upsert; otherwise the bulk upsert carries the mode and the preview
rows projected to `{ticker, shares, avg_price}`. -/
def handleImportHoldings (mode : ImportMode) (validFn : String → Bool)
    (rows : List ImportRow) : ImportTrace :=
  let parsed := parseImportRows rows
  if parsed.1.isEmpty || !parsed.2.isEmpty then
    { validateCalls := [], upsert := none, importErrors := parsed.2 }
  else
    let uniqueTickers := uniqueFirst (parsed.1.map (fun h => h.ticker))
    match validateLoop validFn uniqueTickers with
    | (calls, some t) =>
      { validateCalls := calls, upsert := none,
        importErrors := ["Invalid ticker: " ++ t] }
    | (calls, none) =>
      { validateCalls := calls,
        upsert := some (mode, parsed.1.map (fun h =>
          { ticker := h.ticker, shares := h.shares, avg_price := h.avg_price })),
        importErrors := [] }

/-! ## Analysis cooldown gate — `Portfolio.tsx`, run-analysis button and
`loadAnalysis` -/

/-- `response.data.analysis_meta`. -/
structure AnalysisMeta where
  cooldown_remaining_seconds : ℤ
  next_available_at : Option String
  last_analysis_at : Option String
deriving DecidableEq

/-- The slice of `response.data` the component stores: commentary and
metrics are opaque here, the holdings feed the coverage selector. -/
structure AnalysisData where
  ai_commentary : String
  metrics : String
  holdings : List AnalysisHolding
  analysis_meta : AnalysisMeta
deriving DecidableEq

/-- The component state the run-analysis flow reads and writes. -/
structure AnalysisUiState where
  holdingsCount : ℕ
  analysisLoading : Bool
  cooldownRemainingSeconds : ℤ
  portfolioAnalysis : Option AnalysisData
  analysisStale : Bool
  nextAvailableAt : Option String
  lastAnalysisAt : Option String
  analysisError : Option String
deriving DecidableEq

/-- The `disabled` expression of the Run Analysis button:
`holdings.length === 0 || analysisLoading || cooldownRemainingSeconds > 0`. -/
def runAnalysisDisabled (s : AnalysisUiState) : Bool :=
  decide (s.holdingsCount = 0) || s.analysisLoading ||
    decide (s.cooldownRemainingSeconds > 0)

/-- A user click on the Run Analysis button.  A disabled button fires no
`onClick`, so the click is absorbed with no state change and no request.
Otherwise `handleRunAnalysis` runs `loadAnalysis`, which issues the
`api.analyzePortfolio` request; `response` is its outcome (`none` = the
call threw).  The returned flag records whether the external analysis
collaborator was contacted. -/
def clickRunAnalysis (s : AnalysisUiState) (response : Option AnalysisData) :
    AnalysisUiState × Bool :=
  if runAnalysisDisabled s then (s, false)
  else
    match response with
    | some data =>
      ({ s with
          portfolioAnalysis := some data,
          analysisStale := false,
          cooldownRemainingSeconds := data.analysis_meta.cooldown_remaining_seconds,
          nextAvailableAt := data.analysis_meta.next_available_at,
          lastAnalysisAt := data.analysis_meta.last_analysis_at,
          analysisLoading := false,
          analysisError := none }, true)
    | none =>
      ({ s with
          analysisLoading := false,
          analysisError := some "Failed to analyze portfolio." }, true)

/-! ## Helper lemmas -/

lemma fetchPriceResult_ticker (fetch : String → Option QuoteData) (t : String) :
    (fetchPriceResult fetch t).ticker = t := by
  unfold fetchPriceResult
  cases fetch t <;> rfl

lemma allCached_batch (fetch : String → Option QuoteData) (holdings : List Holding) :
    (batchPriceResults fetch holdings).all (fun r => r.cached) =
      holdings.all (fun h =>
        match fetch h.ticker with
        | some q => q.cached
        | none => false) := by
  induction holdings with
  | nil => rfl
  | cons h t ih =>
    unfold batchPriceResults at *
    simp only [List.map_cons, List.all_cons]
    rw [ih]
    congr 1
    unfold fetchPriceResult
    cases fetch h.ticker <;> rfl

/-! ## Claim theorems (first batch) -/

/-- C4: for every input, the classifier follows the three-rule
first-match precedence with all boundaries inclusive as written, the
absent obligations field defaults to 0, and
`classify(60, 500000, 30, 0)` is conservative even though it satisfies
the aggressive conjunction. -/
theorem C4_risk_classifier_first_match :
    (∀ age income retirementYears obligations : ℚ,
      computeRiskRecommendation age income retirementYears (some obligations) =
        classifySpecRules age income retirementYears obligations) ∧
    (∀ age income retirementYears : ℚ,
      computeRiskRecommendation age income retirementYears none =
        classifySpecRules age income retirementYears 0) ∧
    computeRiskRecommendation 60 500000 30 (some 0) = RiskTolerance.conservative ∧
    computeRiskRecommendation 40 100000 25 (some 1000) = RiskTolerance.aggressive ∧
    computeRiskRecommendation 40 80000 20 (some 800) = RiskTolerance.moderate ∧
    computeRiskRecommendation 40 100000 10 (some 0) = RiskTolerance.conservative :=
  ⟨fun _ _ _ _ => rfl, fun _ _ _ => rfl, by decide, by decide, by decide, by decide⟩

/-- Valuation cycle with one cached successful quote and one failed
request, used to separate the two readings of `all_prices_cached`. -/
def fetchC2 : String → Option QuoteData := fun t =>
  if t = "AAPL" then
    some { current_price := some 100, sector := some "Tech", cached := true }
  else none

def holdingsC2 : List Holding :=
  [{ ticker := "AAPL", shares := 10, avg_price := 100 },
   { ticker := "MISS", shares := 5, avg_price := 50 }]

/-- C2 counterexample: with a non-empty holding list whose every
*resolved* quote is cached but one request failed, the claim's reading
makes the aggregate true while the code computes false — the synthetic
failure result carries `cached = false` and `every` runs over all
per-ticker results, so a failed quote does by itself make the aggregate
false. -/
theorem C2_counterexample_failed_quote :
    allPricesCached fetchC2 holdingsC2 = false ∧
    allPricesCachedResolvedOnly fetchC2 holdingsC2 = true := by
  constructor <;> decide

/-- C2 amended: `all_prices_cached` is true iff the per-ticker result
set is non-empty and every result has `cached = true`, where a failed
request contributes a synthetic result with `cached = false` (so any
failed quote makes the aggregate false); still false for an empty
holding list. -/
theorem C2_all_prices_cached_amended :
    ∀ (fetch : String → Option QuoteData) (holdings : List Holding),
      allPricesCached fetch holdings = allPricesCachedAmendedSpec fetch holdings := by
  intro fetch holdings
  show (decide (0 < (batchPriceResults fetch holdings).length) &&
      (batchPriceResults fetch holdings).all fun r => r.cached) =
    (decide (holdings ≠ []) && holdings.all fun h =>
      match fetch h.ticker with
      | some q => q.cached
      | none => false)
  rw [allCached_batch]
  congr 1
  unfold batchPriceResults
  rw [List.length_map]
  rcases holdings with _ | ⟨h, t⟩ <;> simp

/-- C10: the fund filter never drops a holding whose `asset_type` is
absent, and it drops a holding with a present `asset_type` exactly when
that string uppercases to `ETF`, `MUTUAL FUND`, or `FUND`. -/
theorem C10_absent_asset_type_kept :
    ∀ (t s : String) (v : ℚ),
      keepsForCoverage { ticker := t, current_value := v, asset_type := none } = true ∧
      (keepsForCoverage { ticker := t, current_value := v, asset_type := some s } = false ↔
        toUpperJS s = "ETF" ∨ toUpperJS s = "MUTUAL FUND" ∨ toUpperJS s = "FUND") := by
  intro t s v
  refine ⟨rfl, ?_⟩
  unfold keepsForCoverage excludedAssetTypes
  simp only [Option.map_some', Bool.or_eq_false_iff, decide_eq_false_iff_not,
    Bool.not_eq_false', List.contains_cons, List.contains_nil, Bool.or_false,
    Bool.or_eq_true, beq_iff_eq]
  constructor
  · rintro ⟨-, hmem⟩
    exact hmem
  · rintro (h | h | h) <;> rw [h] <;> exact ⟨by decide, by tauto⟩

/-- C1: clicking Run Analysis while `cooldownRemainingSeconds > 0`
changes nothing — the button's `disabled` attribute suppresses the
click, so no request reaches the analysis collaborator and the whole
cached state (commentary, metrics, holdings, `last_analysis_at`,
`next_available_at`) is untouched, whatever the collaborator would have
answered. -/
theorem C1_cooldown_rejects_locally :
    ∀ (s : AnalysisUiState) (response : Option AnalysisData),
      s.cooldownRemainingSeconds > 0 →
      clickRunAnalysis s response = (s, false) := by
  intro s response h
  unfold clickRunAnalysis
  rw [if_pos]
  unfold runAnalysisDisabled
  simp [h]

def dataC1 : AnalysisData :=
  { ai_commentary := "Portfolio looks balanced.", metrics := "{}",
    holdings := [{ ticker := "AAPL", current_value := 1000, asset_type := none }],
    analysis_meta :=
      { cooldown_remaining_seconds := 86400,
        next_available_at := some "2026-10-13T00:00:00Z",
        last_analysis_at := some "2026-10-12T00:00:00Z" } }

def stateC1 : AnalysisUiState :=
  { holdingsCount := 2, analysisLoading := false, cooldownRemainingSeconds := 3600,
    portfolioAnalysis := some dataC1, analysisStale := false,
    nextAvailableAt := some "2026-10-12T01:00:00Z",
    lastAnalysisAt := some "2026-10-12T00:00:00Z", analysisError := none }

theorem C1_cooldown_rejects_locally_witness :
    clickRunAnalysis stateC1 (some dataC1) = (stateC1, false) :=
  C1_cooldown_rejects_locally stateC1 (some dataC1) (by decide)

/-- Quote that resolves with a present price equal to `0`. -/
def fetchC6 : String → Option QuoteData := fun t =>
  if t = "AAPL" then
    some { current_price := some 0, sector := some "Tech", cached := true }
  else none

def holdingC6 : Holding := { ticker := "AAPL", shares := 10, avg_price := 100 }

/-- C6 counterexample: a resolved price that is present and equal to 0
takes the falsy branch of `if (priceData?.price)`: the code emits the
fallback row (`current_price` absent, `gain_loss = 0`), not the derived
fields the claim requires (`current_price = 0`,
`gain_loss = current_value − cost_basis = −1000`). -/
theorem C6_counterexample_zero_price :
    (priceHoldingSingle fetchC6 holdingC6).current_price = none ∧
    (priceHoldingSingle fetchC6 holdingC6).current_value = 0 ∧
    (priceHoldingSingle fetchC6 holdingC6).gain_loss = 0 ∧
    ¬((priceHoldingSingle fetchC6 holdingC6).current_price = some 0 ∧
      (priceHoldingSingle fetchC6 holdingC6).gain_loss =
        (priceHoldingSingle fetchC6 holdingC6).current_value -
          holdingC6.shares * holdingC6.avg_price) := by
  decide

/-- C6 amended: the derived fields hold for every holding whose quote
resolves with a *truthy* price — present and non-zero; a resolved price
of exactly 0 instead produces the fallback row. -/
theorem C6_priced_branch_amended :
    ∀ (fetch : String → Option QuoteData) (h : Holding) (q : QuoteData) (p : ℚ),
      fetch h.ticker = some q → q.current_price = some p → p ≠ 0 →
      priceHoldingSingle fetch h =
        { ticker := h.ticker, shares := h.shares, avg_price := h.avg_price,
          sector := sectorOrUnknown q.sector, current_price := some p,
          current_value := h.shares * p,
          gain_loss := h.shares * p - h.shares * h.avg_price,
          gain_loss_pct :=
            if h.shares * h.avg_price > 0 then
              (h.shares * p - h.shares * h.avg_price) / (h.shares * h.avg_price) * 100
            else 0 } := by
  intro fetch h q p hq hp hp0
  unfold priceHoldingSingle priceHolding lookupPriceResult
  rw [List.find?_cons_of_pos _ (by simp [fetchPriceResult_ticker])]
  unfold fetchPriceResult
  rw [hq]
  simp only [Option.some_bind, hp]
  rw [if_neg hp0]

theorem C6_priced_branch_amended_witness :
    priceHoldingSingle fetchC2 { ticker := "AAPL", shares := 10, avg_price := 100 } =
      { ticker := "AAPL", shares := 10, avg_price := 100, sector := "Tech",
        current_price := some 100, current_value := 1000, gain_loss := 0,
        gain_loss_pct := 0 } := by
  have := C6_priced_branch_amended fetchC2
    { ticker := "AAPL", shares := 10, avg_price := 100 }
    { current_price := some 100, sector := some "Tech", cached := true } 100
    (by decide) rfl (by norm_num)
  rw [this]
  norm_num [sectorOrUnknown]
  intro h
  exact absurd h (by decide)

lemma topFilter_nonpos (total : ℚ) (h : total ≤ 0) :
    ∀ (running : ℚ) (l : List AnalysisHolding), topFilter total running l = [] := by
  intro running l
  induction l generalizing running with
  | nil => rfl
  | cons a rest ih =>
    simp only [topFilter, if_pos h]
    exact ih _

lemma topFilter_saturated (total : ℚ) (hpos : 0 < total) :
    ∀ (running : ℚ) (l : List AnalysisHolding), 7/10 ≤ running / total →
      topFilter total running l = [] := by
  intro running l h
  induction l with
  | nil => rfl
  | cons a rest ih =>
    simp only [topFilter, if_neg (not_le.mpr hpos), if_pos h]
    exact ih

lemma topFilter_eq_takeWhileShare (total : ℚ) (hpos : 0 < total) :
    ∀ (l : List AnalysisHolding) (running : ℚ),
      topFilter total running l = takeWhileShare total running l := by
  intro l
  induction l with
  | nil => intro running; rfl
  | cons a rest ih =>
    intro running
    simp only [topFilter, takeWhileShare, if_neg (not_le.mpr hpos)]
    by_cases h : 7/10 ≤ running / total
    · rw [if_pos h, if_neg (not_lt.mpr h)]
      exact topFilter_saturated total hpos running rest h
    · rw [if_neg h, if_pos (lt_of_not_ge h)]
      rw [ih]

/-- C3: the coverage selection is exactly: drop fund-like asset types,
sort descending by `current_value` (stable), take `totalValue` over the
filtered set, select nothing when `totalValue ≤ 0`, and otherwise keep
holdings in order only while `running / totalValue < 0.70` at the moment
each is considered; on values 400, 300, 300 the first two holdings are
selected (the third is evaluated at share exactly 0.70 and excluded). -/
theorem C3_coverage_selection_rule :
    (∀ holdings : List AnalysisHolding,
      coverageSelection holdings = coverageSelectionSpec holdings) ∧
    coverageSelection
      [{ ticker := "A", current_value := 400, asset_type := none },
       { ticker := "B", current_value := 300, asset_type := none },
       { ticker := "C", current_value := 300, asset_type := none }] =
      [{ ticker := "A", current_value := 400, asset_type := none },
       { ticker := "B", current_value := 300, asset_type := none }] := by
  constructor
  · intro holdings
    simp only [coverageSelection, coverageSelectionSpec]
    rw [List.Perm.sum_eq (List.Perm.map _ (List.perm_insertionSort byValueDesc _))]
    by_cases htot :
        ((holdings.filter keepsForCoverage).map (fun h => h.current_value)).sum ≤ 0
    · rw [if_pos htot, topFilter_nonpos _ htot]
    · rw [if_neg htot, topFilter_eq_takeWhileShare _ (not_le.mp htot)]
  · norm_num [coverageSelection, keepsForCoverage, List.insertionSort,
      List.orderedInsert, byValueDesc, topFilter]

lemma find?_filter_ne (k k2 : String) (hne : k2 ≠ k) :
    ∀ m : List (String × String),
      (m.filter (fun p => p.1 ≠ k)).find? (fun p => p.1 = k2) =
        m.find? (fun p => p.1 = k2) := by
  intro m
  induction m with
  | nil => rfl
  | cons a rest ih =>
    simp only [ne_eq, decide_not] at ih ⊢
    by_cases ha : a.1 = k
    · simp [List.filter_cons, List.find?_cons, ha, Ne.symm hne, ih, -List.find?_filter]
    · by_cases h2 : a.1 = k2
      · simp [List.filter_cons, List.find?_cons, ha, h2, hne, Ne.symm hne, -List.find?_filter]
      · simp [List.filter_cons, List.find?_cons, ha, h2, ih, -List.find?_filter]

lemma lookupKey_setKey (m : List (String × String)) (k v k2 : String) :
    lookupKey (setKey m k v) k2 = if k2 = k then some v else lookupKey m k2 := by
  unfold setKey lookupKey
  by_cases h : k2 = k
  · subst h
    simp [List.find?_cons]
  · rw [if_neg h]
    simp only [List.find?_cons, decide_eq_true_eq]
    have : (decide (k = k2)) = false := by simp [Ne.symm h]
    simp only [List.find?, this]
    rw [find?_filter_ne k k2 h]

lemma transcripts_fold_lookup (fetchT : String → Option String) :
    ∀ (ts : List String) (acc : List (String × String)) (k : String),
      lookupKey ((ts.map (fun t => (t, fetchT t))).foldl
        (fun acc r =>
          match r.2 with
          | some s => setKey acc r.1 s
          | none => acc) acc) k =
      if k ∈ ts ∧ (fetchT k).isSome then fetchT k else lookupKey acc k := by
  intro ts
  induction ts with
  | nil =>
    intro acc k
    simp
  | cons t rest ih =>
    intro acc k
    simp only [List.map_cons, List.foldl_cons]
    rw [ih]
    by_cases hk : k ∈ rest ∧ (fetchT k).isSome
    · rw [if_pos hk, if_pos ⟨List.mem_cons_of_mem t hk.1, hk.2⟩]
    · rw [if_neg hk]
      cases hft : fetchT t with
      | none =>
        by_cases hkt : k = t
        · subst hkt
          have : ¬(k ∈ k :: rest ∧ (fetchT k).isSome) := by
            rintro ⟨-, hs⟩
            rw [hft] at hs
            simp at hs
          rw [if_neg this]
        · have : ¬(k ∈ t :: rest ∧ (fetchT k).isSome) := by
            rintro ⟨hmem, hs⟩
            rcases List.mem_cons.mp hmem with h | h
            · exact hkt h
            · exact hk ⟨h, hs⟩
          rw [if_neg this]
      | some s =>
        rw [lookupKey_setKey]
        by_cases hkt : k = t
        · subst hkt
          rw [if_pos rfl, if_pos ⟨List.mem_cons_self k rest, by rw [hft]; rfl⟩, hft]
        · rw [if_neg hkt]
          have : ¬(k ∈ t :: rest ∧ (fetchT k).isSome) := by
            rintro ⟨hmem, hs⟩
            rcases List.mem_cons.mp hmem with h | h
            · exact hkt h
            · exact hk ⟨h, hs⟩
          rw [if_neg this]

/-- C9: per-ticker transcript requests fail independently — the result
map holds exactly the tickers whose request succeeded (with their
summaries), the partial-failure flag is set iff at least one request
was rejected, and the operation always returns this successful subset
(it is a total function of the per-ticker outcomes, never an
all-or-nothing failure). -/
theorem C9_transcript_fanout_tolerates_failures :
    ∀ (fetchT : String → Option String) (tickers : List String),
      (∀ t, lookupKey (fetchTranscripts fetchT tickers).1 t =
        if t ∈ tickers then fetchT t else none) ∧
      (fetchTranscripts fetchT tickers).2 =
        tickers.any (fun t => (fetchT t).isNone) := by
  intro fetchT tickers
  constructor
  · intro t
    show lookupKey ((tickers.map (fun t => (t, fetchT t))).foldl
      (fun acc r =>
        match r.2 with
        | some s => setKey acc r.1 s
        | none => acc) []) t = _
    rw [transcripts_fold_lookup]
    by_cases ht : t ∈ tickers
    · by_cases hs : (fetchT t).isSome
      · rw [if_pos ⟨ht, hs⟩, if_pos ht]
      · rw [if_neg (by tauto), if_pos ht]
        cases h : fetchT t with
        | none => rfl
        | some s => rw [h] at hs; exact absurd rfl hs
    · rw [if_neg (by tauto), if_neg ht]
      rfl
  · show (tickers.map (fun t => (t, fetchT t))).any (fun r => r.2.isNone) = _
    induction tickers with
    | nil => rfl
    | cons t rest ih =>
      simp only [List.map_cons, List.any_cons]
      rw [ih]

lemma parseImportRowsFrom_errors : ∀ (rows : List ImportRow) (n : ℕ),
    (parseImportRowsFrom n rows).2 = (List.enumFrom n rows).filterMap (fun p =>
      if rowSkipped p.2 then none
      else if rowInvalid p.2 then some (importErrorMsg p.1)
      else none) := by
  intro rows
  induction rows with
  | nil => intro n; rfl
  | cons row rest ih =>
    intro n
    by_cases hs : rowSkipped row = true
    · simp [parseImportRowsFrom, List.enumFrom, hs, ih]
    · by_cases hi : rowInvalid row = true
      · simp [parseImportRowsFrom, List.enumFrom, hs, hi, ih]
      · simp [parseImportRowsFrom, List.enumFrom, hs, hi, ih]

lemma parseImportRowsFrom_preview : ∀ (rows : List ImportRow) (n : ℕ),
    (parseImportRowsFrom n rows).1 = importPreviewSpec rows := by
  intro rows
  induction rows with
  | nil => intro n; rfl
  | cons row rest ih =>
    intro n
    by_cases hs : rowSkipped row = true
    · simp [parseImportRowsFrom, importPreviewSpec, hs, ih (n+1)]
    · by_cases hi : rowInvalid row = true
      · simp [parseImportRowsFrom, importPreviewSpec, hs, hi, ih (n+1)]
      · simp [parseImportRowsFrom, importPreviewSpec, hs, hi, ih (n+1)]

lemma handleImport_abort_on_errors (mode : ImportMode) (validFn : String → Bool)
    (rows : List ImportRow) (h : (parseImportRows rows).2 ≠ []) :
    handleImportHoldings mode validFn rows =
      { validateCalls := [], upsert := none,
        importErrors := (parseImportRows rows).2 } := by
  have hcond : ((parseImportRows rows).1.isEmpty || !(parseImportRows rows).2.isEmpty) = true := by
    cases he : (parseImportRows rows).2 with
    | nil => exact absurd he h
    | cons a l => simp [he]
  simp only [handleImportHoldings, hcond, if_true]

/-- The worked bulk-import example of the claim: an all-blank row, a row
with unparseable shares, and a well-formed row. -/
def rowsC7 : List ImportRow :=
  [{ id := 1, ticker := "", shares := "", avg_price := "" },
   { id := 2, ticker := "AAPL", shares := "x", avg_price := "150" },
   { id := 3, ticker := "MSFT", shares := "5", avg_price := "300" }]

/-- C7: local validation silently skips all-blank rows, appends exactly
one positional error message per remaining malformed row while
continuing through the whole batch, and any error aborts the import
before any network call (no ticker validation, no upsert), surfacing
the full error list; on the worked example the blank row is skipped,
row 2 yields the single error, and the MSFT row is never committed. -/
theorem C7_import_local_validation :
    (∀ rows : List ImportRow, (parseImportRows rows).2 = importErrorsSpec rows) ∧
    (∀ rows : List ImportRow, (parseImportRows rows).1 = importPreviewSpec rows) ∧
    (∀ (mode : ImportMode) (validFn : String → Bool) (rows : List ImportRow),
      (parseImportRows rows).2 ≠ [] →
      handleImportHoldings mode validFn rows =
        { validateCalls := [], upsert := none,
          importErrors := (parseImportRows rows).2 }) ∧
    (parseImportRows rowsC7).2 = ["Row 2: enter ticker, shares, and avg price."] ∧
    (parseImportRows rowsC7).1 =
      [{ id := 3, ticker := "MSFT", shares := 5, avg_price := 300 }] ∧
    handleImportHoldings ImportMode.merge (fun _ => true) rowsC7 =
      { validateCalls := [], upsert := none,
        importErrors := ["Row 2: enter ticker, shares, and avg price."] } := by
  refine ⟨fun rows => parseImportRowsFrom_errors rows 0,
    fun rows => parseImportRowsFrom_preview rows 0,
    handleImport_abort_on_errors, ?_, ?_, ?_⟩
  · decide
  · decide
  · decide

theorem C7_import_local_validation_witness :
    handleImportHoldings ImportMode.merge (fun _ => true) rowsC7 =
      { validateCalls := [], upsert := none,
        importErrors := (parseImportRows rowsC7).2 } :=
  C7_import_local_validation.2.2.1 ImportMode.merge (fun _ => true) rowsC7 (by decide)

lemma mem_uniqueFirstAux : ∀ (l seen : List String) (t : String),
    t ∈ uniqueFirstAux seen l ↔ t ∈ l ∧ t ∉ seen := by
  intro l
  induction l with
  | nil => intro seen t; simp [uniqueFirstAux]
  | cons a rest ih =>
    intro seen t
    by_cases ha : a ∈ seen
    · rw [uniqueFirstAux, if_pos ha, ih]
      constructor
      · rintro ⟨hmem, hns⟩
        exact ⟨List.mem_cons_of_mem a hmem, hns⟩
      · rintro ⟨hmem, hns⟩
        rcases List.mem_cons.mp hmem with h | h
        · exact absurd (h ▸ ha) hns
        · exact ⟨h, hns⟩
    · rw [uniqueFirstAux, if_neg ha]
      simp only [List.mem_cons, ih]
      constructor
      · rintro (h | ⟨hmem, hns⟩)
        · exact ⟨Or.inl h, h ▸ ha⟩
        · exact ⟨Or.inr hmem, fun hs => hns (Or.inr hs)⟩
      · rintro ⟨h | hmem, hns⟩
        · exact Or.inl h
        · by_cases hta : t = a
          · exact Or.inl hta
          · exact Or.inr ⟨hmem, fun hs => hs.elim hta hns⟩

lemma nodup_uniqueFirstAux : ∀ (l seen : List String), (uniqueFirstAux seen l).Nodup := by
  intro l
  induction l with
  | nil => intro seen; exact List.nodup_nil
  | cons a rest ih =>
    intro seen
    by_cases ha : a ∈ seen
    · rw [uniqueFirstAux, if_pos ha]
      exact ih seen
    · rw [uniqueFirstAux, if_neg ha]
      refine List.nodup_cons.mpr ⟨?_, ih (a :: seen)⟩
      rw [mem_uniqueFirstAux]
      rintro ⟨-, hns⟩
      exact hns (List.mem_cons_self a seen)

lemma validateLoop_snd (validFn : String → Bool) :
    ∀ l : List String,
      (validateLoop validFn l).2 = l.find? (fun t => !validFn t) := by
  intro l
  induction l with
  | nil => rfl
  | cons t rest ih =>
    by_cases hv : validFn t = true
    · rw [validateLoop, if_pos hv]
      rw [List.find?_cons_of_neg _ (by simp [hv])]
      exact ih
    · rw [validateLoop, if_neg hv]
      rw [List.find?_cons_of_pos _ (by simp [Bool.of_not_eq_true hv])]

lemma validateLoop_all_valid (validFn : String → Bool) :
    ∀ l : List String, (∀ t ∈ l, validFn t = true) →
      validateLoop validFn l = (l, none) := by
  intro l
  induction l with
  | nil => intro _; rfl
  | cons t rest ih =>
    intro h
    rw [validateLoop, if_pos (h t (List.mem_cons_self t rest)),
      ih (fun s hs => h s (List.mem_cons_of_mem t hs))]

/-- C8: the pre-flight step deduplicates the tickers of the locally
valid row set (first-occurrence order, no duplicates, same membership),
validates them remotely one by one; if every distinct ticker validates,
the bulk upsert is issued carrying the mode and the full validated row
set, with every distinct ticker having been sent to the validator; if
some distinct ticker is invalid, the import aborts naming the first
invalid one and no upsert is ever issued. -/
theorem C8_preflight_ticker_validation :
    ∀ (mode : ImportMode) (validFn : String → Bool) (rows : List ImportRow),
      (parseImportRows rows).2 = [] →
      (parseImportRows rows).1 ≠ [] →
      (uniqueFirst ((parseImportRows rows).1.map (fun h => h.ticker))).Nodup ∧
      (∀ t, t ∈ uniqueFirst ((parseImportRows rows).1.map (fun h => h.ticker)) ↔
        t ∈ (parseImportRows rows).1.map (fun h => h.ticker)) ∧
      ((∀ t ∈ uniqueFirst ((parseImportRows rows).1.map (fun h => h.ticker)),
          validFn t = true) →
        handleImportHoldings mode validFn rows =
          { validateCalls := uniqueFirst ((parseImportRows rows).1.map (fun h => h.ticker)),
            upsert := some (mode, (parseImportRows rows).1.map (fun h =>
              { ticker := h.ticker, shares := h.shares, avg_price := h.avg_price })),
            importErrors := [] }) ∧
      (∀ t, (uniqueFirst ((parseImportRows rows).1.map (fun h => h.ticker))).find?
          (fun s => !validFn s) = some t →
        validFn t = false ∧
        (handleImportHoldings mode validFn rows).upsert = none ∧
        (handleImportHoldings mode validFn rows).importErrors =
          ["Invalid ticker: " ++ t]) := by
  intro mode validFn rows herr hprev
  have hcond : ((parseImportRows rows).1.isEmpty || !(parseImportRows rows).2.isEmpty) = false := by
    rw [herr]
    cases hp : (parseImportRows rows).1 with
    | nil => exact absurd hp hprev
    | cons a l => simp [hp]
  refine ⟨nodup_uniqueFirstAux _ [], ?_, ?_, ?_⟩
  · intro t
    rw [uniqueFirst, mem_uniqueFirstAux]
    simp
  · intro hvalid
    rw [handleImportHoldings]
    rw [hcond]
    simp only [Bool.false_eq_true, if_false]
    rw [validateLoop_all_valid validFn _ hvalid]
  · intro t hfind
    have hv : validFn t = false := by
      have := List.find?_some hfind
      simpa using this
    refine ⟨hv, ?_⟩
    rw [handleImportHoldings]
    rw [hcond]
    simp only [Bool.false_eq_true, if_false]
    have hsnd := validateLoop_snd validFn
      (uniqueFirst ((parseImportRows rows).1.map (fun h => h.ticker)))
    rw [hfind] at hsnd
    cases hvl : validateLoop validFn
        (uniqueFirst ((parseImportRows rows).1.map (fun h => h.ticker))) with
    | mk calls res =>
      rw [hvl] at hsnd
      simp only at hsnd
      rw [hsnd]
      exact ⟨rfl, rfl⟩

def rowsC8 : List ImportRow :=
  [{ id := 1, ticker := "aapl", shares := "1", avg_price := "10" },
   { id := 2, ticker := "BAD", shares := "2", avg_price := "20" }]

/-- Remote verdicts for the witness run: every ticker but `BAD` is
valid. -/
def validFnC8 : String → Bool := fun t => t != "BAD"

theorem C8_preflight_ticker_validation_witness :
    validFnC8 "BAD" = false ∧
    (handleImportHoldings ImportMode.replace validFnC8 rowsC8).upsert = none ∧
    (handleImportHoldings ImportMode.replace validFnC8 rowsC8).importErrors =
      ["Invalid ticker: " ++ "BAD"] :=
  (C8_preflight_ticker_validation ImportMode.replace validFnC8 rowsC8
    (by decide) (by decide)).2.2.2 "BAD" (by decide)

lemma lookup_batch (fetch : String → Option QuoteData) :
    ∀ (holdings : List Holding) (t : String),
      t ∈ holdings.map (fun h => h.ticker) →
      lookupPriceResult (batchPriceResults fetch holdings) t =
        some (fetchPriceResult fetch t) := by
  intro holdings
  induction holdings with
  | nil => intro t ht; simp at ht
  | cons h rest ih =>
    intro t ht
    unfold batchPriceResults lookupPriceResult at *
    simp only [List.map_cons]
    by_cases he : h.ticker = t
    · rw [List.find?_cons_of_pos _ (by simp [fetchPriceResult_ticker, he])]
      rw [he]
    · rw [List.find?_cons_of_neg _ (by simp [fetchPriceResult_ticker, he])]
      rcases List.mem_cons.mp ht with hh | hh
      · exact absurd hh.symm he
      · exact ih t hh

lemma lookup_single (fetch : String → Option QuoteData) (t : String) :
    lookupPriceResult [fetchPriceResult fetch t] t =
      some (fetchPriceResult fetch t) := by
  unfold lookupPriceResult
  rw [List.find?_cons_of_pos _ (by simp [fetchPriceResult_ticker])]

lemma priceHolding_batch_eq_single (fetch : String → Option QuoteData)
    (holdings : List Holding) (h : Holding) (hmem : h ∈ holdings) :
    priceHolding (batchPriceResults fetch holdings) h = priceHoldingSingle fetch h := by
  unfold priceHoldingSingle priceHolding
  rw [lookup_batch fetch holdings h.ticker (List.mem_map.mpr ⟨h, hmem, rfl⟩),
    lookup_single]

lemma priceHoldingSingle_failed (fetch : String → Option QuoteData) (h : Holding)
    (hf : fetch h.ticker = none) :
    priceHoldingSingle fetch h = fallbackHolding h "Unknown" := by
  unfold priceHoldingSingle priceHolding
  rw [lookup_single]
  unfold fetchPriceResult
  rw [hf]
  simp [sectorOrUnknown]

lemma priceHolding_shares (results : List PriceResult) (h : Holding) :
    (priceHolding results h).shares = h.shares := by
  simp only [priceHolding, fallbackHolding]
  split
  · split <;> rfl
  · rfl

lemma priceHolding_avg_price (results : List PriceResult) (h : Holding) :
    (priceHolding results h).avg_price = h.avg_price := by
  simp only [priceHolding, fallbackHolding]
  split
  · split <;> rfl
  · rfl

/-- Valuation cycle for the C5 witness: AAPL resolves, MISS fails. -/
def fetchC5 : String → Option QuoteData := fun t =>
  if t = "AAPL" then
    some { current_price := some 150, sector := some "Tech", cached := false }
  else none

def holdingMissC5 : Holding := { ticker := "MISS", shares := 4, avg_price := 25 }

def holdingsC5 : List Holding :=
  [{ ticker := "AAPL", shares := 10, avg_price := 100 }, holdingMissC5]

/-- C5: one failed quote does not abort the batch — the output has one
row per holding; the failed holding's row is the fallback
(`current_price` absent, `current_value = 0`, `gain_loss = 0`,
`gain_loss_pct = 0`, sector `Unknown`); every holding's row depends only
on its own quote result; and the totals sum over the full produced set,
so the failed holding contributes `shares × avg_price` to
`total_invested` and `0` to `total_value` and `total_gain_loss`. -/
theorem C5_failed_quote_tolerated :
    ∀ (fetch : String → Option QuoteData) (holdings : List Holding) (h : Holding),
      h ∈ holdings → fetch h.ticker = none →
      (loadPrices fetch holdings).1.length = holdings.length ∧
      priceHolding (batchPriceResults fetch holdings) h =
        { ticker := h.ticker, shares := h.shares, avg_price := h.avg_price,
          sector := "Unknown", current_price := none, current_value := 0,
          gain_loss := 0, gain_loss_pct := 0 } ∧
      (∀ h2 ∈ holdings, priceHolding (batchPriceResults fetch holdings) h2 =
        priceHoldingSingle fetch h2) ∧
      (loadPrices fetch holdings).2.total_invested =
        (holdings.map (fun x => x.shares * x.avg_price)).sum ∧
      (loadPrices fetch holdings).2.total_value =
        (holdings.map (fun x => (priceHoldingSingle fetch x).current_value)).sum ∧
      (loadPrices fetch holdings).2.total_gain_loss =
        (holdings.map (fun x => (priceHoldingSingle fetch x).gain_loss)).sum ∧
      (priceHoldingSingle fetch h).current_value = 0 ∧
      (priceHoldingSingle fetch h).gain_loss = 0 := by
  intro fetch holdings h hmem hfail
  have hsingle := priceHoldingSingle_failed fetch h hfail
  refine ⟨?_, ?_, fun h2 hm2 => priceHolding_batch_eq_single fetch holdings h2 hm2,
    ?_, ?_, ?_, ?_, ?_⟩
  · show (holdings.map (priceHolding (batchPriceResults fetch holdings))).length = _
    rw [List.length_map]
  · rw [priceHolding_batch_eq_single fetch holdings h hmem, hsingle]
    rfl
  · show ((holdings.map (priceHolding (batchPriceResults fetch holdings))).map
      (fun x => x.shares * x.avg_price)).sum = _
    rw [List.map_map]
    congr 1
    refine List.map_congr_left (fun x _ => ?_)
    simp only [Function.comp_apply, priceHolding_shares, priceHolding_avg_price]
  · show ((holdings.map (priceHolding (batchPriceResults fetch holdings))).map
      (fun x => x.current_value)).sum = _
    rw [List.map_map]
    congr 1
    refine List.map_congr_left (fun x hx => ?_)
    simp only [Function.comp_apply, priceHolding_batch_eq_single fetch holdings x hx]
  · show ((holdings.map (priceHolding (batchPriceResults fetch holdings))).map
      (fun x => x.gain_loss)).sum = _
    rw [List.map_map]
    congr 1
    refine List.map_congr_left (fun x hx => ?_)
    simp only [Function.comp_apply, priceHolding_batch_eq_single fetch holdings x hx]
  · rw [hsingle]
    rfl
  · rw [hsingle]
    rfl

theorem C5_failed_quote_tolerated_witness :
    priceHolding (batchPriceResults fetchC5 holdingsC5) holdingMissC5 =
      { ticker := holdingMissC5.ticker, shares := holdingMissC5.shares,
        avg_price := holdingMissC5.avg_price, sector := "Unknown",
        current_price := none, current_value := 0, gain_loss := 0,
        gain_loss_pct := 0 } :=
  (C5_failed_quote_tolerated fetchC5 holdingsC5 holdingMissC5
    (by decide) (by decide)).2.1

end PortfolioAnalyzer
